import Mathlib

/-!
Shallow embedding of `pkg/proxy/parser/parser.go` from the codis proxy
(RESP protocol decoder/encoder and key-extraction helpers), together with
proofs about its externally visible behaviour.

Bytes are modelled as `Nat` (values `0..255`); byte slices as `List Nat`.
Go's `(value, error)` returns are modelled as `Except Err value`: in this
file every Go return site yields either a zero value with a non-nil error
or a real value with a nil error, so the sum is faithful.
-/

deriving instance DecidableEq for Except

namespace Codis

/-- Error kinds produced by the parser package.  `truncated` stands for the
io errors surfaced by `bufio.ReadBytes`/`io.ReadFull` (stream ended early);
`protocolError` for the malformed-packet errors; `invalidNumber` for
`Btoi`'s "Invalid number"; `invalidCommand` for the "invalid resp" errors
of `Op`/`defaultGetKeys`; `bulkTerm` for `ReadBulk`'s "should be just 0";
`fuel` is an artefact of the fuel-indexed embedding of the (unbounded)
recursive Go `Parse` and corresponds to no Go error. -/
inductive Err : Type where
  | truncated : Err
  | protocolError : Err
  | invalidNumber : Err
  | invalidCommand : Err
  | bulkTerm : Err
  | fuel : Err
deriving DecidableEq

/-- Go constant `ErrorResp = iota` (0). -/
def ErrorResp : Nat := 0
/-- Go constant `SimpleString` (1). -/
def SimpleString : Nat := 1
/-- Go constant `IntegerResp` (2). -/
def IntegerResp : Nat := 2
/-- Go constant `BulkResp` (3). -/
def BulkResp : Nat := 3
/-- Go constant `MultiResp` (4). -/
def MultiResp : Nat := 4
/-- Go constant `NoKey` (5). -/
def NoKey : Nat := 5

/-- Go struct `Resp { Type int; Raw []byte; Multi []*Resp }`.  The field
`Type` is a Lean keyword, so the accessor is named `typ`. -/
inductive Resp : Type where
  | mk (typ : Nat) (raw : List Nat) (multi : List Resp) : Resp

/-- Accessor for the `Type` field of a `Resp`. -/
def Resp.typ : Resp → Nat
  | .mk t _ _ => t

/-- Accessor for the `Raw` field of a `Resp`. -/
def Resp.Raw : Resp → List Nat
  | .mk _ r _ => r

/-- Accessor for the `Multi` field of a `Resp`. -/
def Resp.Multi : Resp → List Resp
  | .mk _ _ m => m

/-- Loop body of Go `Btoi`.  The Go loop is
`for i := uint8(0); i < uint8(len(b)); i++`, so it runs exactly
`len(b) mod 256` iterations (the bound `uint8(len(b))` is below 256, hence
`i` never wraps); `rem` counts the remaining iterations and `i` is the
current index.  The Go digit test is `b[i] >= 0 && b[i] <= '9'`; for an
unsigned byte the first conjunct is always true, so the test is modelled
as `c ≤ 57` exactly as the code behaves. -/
def btoiLoop (b : List Nat) : Nat → Nat → Int → Int → Except Err Int
  | _, 0, sign, n => .ok (sign * n)
  | i, rem + 1, sign, n =>
    if i = 0 && b.getD i 0 = 45 then
      if b.length = 1 then .error .invalidNumber
      else btoiLoop b (i + 1) rem (-1) n
    else if b.getD i 0 ≤ 57 then
      btoiLoop b (i + 1) rem sign
        ((if 0 < i then n * 10 else n) + ((b.getD i 0 : Int) - 48))
    else .error .invalidNumber

/-- Go `Btoi`: ASCII bytes to int.  The accumulator is an unbounded `Int`
(Go `int` overflow is an acknowledged, unmodelled gap of the source, per
its own `todo: overflow` comment; no claim in this file depends on
overflow).  The iteration bound `b.length % 256` reproduces the
`uint8(len(b))` loop bound. -/
def Btoi (b : List Nat) : Except Err Int :=
  btoiLoop b 0 (b.length % 256) 1 0

/-- Decimal ASCII representation of a natural number, as produced by Go
`strconv.Itoa` for non-negative arguments (the only ones the embedded
code passes: the `intBuffer` cache of `Itoa` returns the same bytes and
is not modelled separately). -/
def itoaNat (n : Nat) : List Nat :=
  (Nat.toDigits 10 n).map Char.toNat

/-- Splitter for `bufio.Reader.ReadBytes('\n')`: returns the prefix up to
and including the first byte 10, and the remaining stream, or `none` when
the stream has no newline (the io-error case). -/
def splitLine : List Nat → Option (List Nat × List Nat)
  | [] => none
  | c :: cs =>
    if c = 10 then some ([c], cs)
    else
      match splitLine cs with
      | none => none
      | some (l, r) => some (c :: l, r)

/-- Go `readLine`: one CRLF-terminated line.  A stream with no `\n` is the
io-error path (`truncated`); a line shorter than 2 bytes or not ending in
`\r\n` is the "invalid redis packet" path (`protocolError`). -/
def readLine (s : List Nat) : Except Err (List Nat × List Nat) :=
  match splitLine s with
  | none => .error .truncated
  | some (line, rest) =>
    if line.length < 2 then .error .protocolError
    else if line.getD (line.length - 2) 0 ≠ 13 then .error .protocolError
    else .ok (line, rest)

/-- Go `raw2Bulk` (and the identical `raw2Error`): `r.Raw[1 : len-2]`,
skipping the type marker byte and the trailing `\r\n` only.  Callers pass
buffers of length ≥ 3, where the Go slice has length `len-3`. -/
def raw2Bulk (raw : List Nat) : List Nat :=
  (raw.drop 1).take (raw.length - 3)

/-- Go `bytes.IndexByte(b, '\n')`: index of the first byte 10. -/
def indexOf10 : List Nat → Option Nat
  | [] => none
  | c :: cs => if c = 10 then some 0 else (indexOf10 cs).map (· + 1)

/-- Go `IsLetter`. -/
def IsLetter (c : Nat) : Bool :=
  (97 ≤ c && c ≤ 122) || (65 ≤ c && c ≤ 90)

/-- Go `strings.Split(s, " ")` for the single-byte separator 0x20: split
into (possibly empty) tokens between space bytes. -/
def splitOnSpace : List Nat → List (List Nat)
  | [] => [[]]
  | c :: cs =>
    if c = 32 then [] :: splitOnSpace cs
    else
      match splitOnSpace cs with
      | t :: ts => (c :: t) :: ts
      | [] => [[c]]

/-- ASCII whitespace recognised by Go `strings.TrimSpace`. -/
def isSpaceByte (c : Nat) : Bool :=
  c = 32 || c = 9 || c = 10 || c = 11 || c = 12 || c = 13

/-- Go `strings.TrimSpace`, modelled for ASCII input (the inline-command
tokens it is applied to; multi-byte Unicode whitespace cannot occur in
the claims' inputs and is not modelled). -/
def trimSpace (l : List Nat) : List Nat :=
  ((l.dropWhile isSpaceByte).reverse.dropWhile isSpaceByte).reverse

/-- Wire encoding produced by `respcoding.Marshal` for a (trimmed, non
empty) string token: a RESP bulk string `$<len>\r\n<tok>\r\n`.  For a Go
string argument `Marshal` cannot fail, so the error return is dropped. -/
def marshalBulk (s : List Nat) : List Nat :=
  36 :: (itoaNat s.length ++ (13 :: 10 :: (s ++ [13, 10])))

/-- Go `ReadBulk`: for a non-negative size, read exactly `size` payload
bytes (`io.ReadFull`; too-short stream is the io-error path) and one more
line, append both to `raw`, and require that closing line to be exactly
`\r\n` (length 2). -/
def ReadBulk (s : List Nat) (size : Int) (raw : List Nat) :
    Except Err (List Nat × List Nat) :=
  if size < 0 then .ok (raw, s)
  else if s.length < size.toNat then .error .truncated
  else
    match readLine (s.drop size.toNat) with
    | .error e => .error e
    | .ok (line, s2) =>
      if line.length ≠ 2 then .error .bulkTerm
      else .ok (raw ++ s.take size.toNat ++ line, s2)

/-- Loop of Go `Parse`'s `'*'` branch: decode exactly `n` consecutive
values with the one-value parser `p`, threading the stream and failing on
the first child failure, exactly as the Go `for j := 0; j < i; j++` loop
over recursive `Parse` calls. -/
def parseChildren (p : List Nat → Except Err (Resp × List Nat)) :
    Nat → List Nat → Except Err (List Resp × List Nat)
  | 0, s => .ok ([], s)
  | n + 1, s =>
    match p s with
    | .error e => .error e
    | .ok (r, s1) =>
      match parseChildren p n s1 with
      | .error e => .error e
      | .ok (rs, s2) => .ok (r :: rs, s2)

/-- Slice `line[1 : len(line)-2]` used by Go `Parse` to read the number in
a `$`/`*` header line. -/
def lineNum (line : List Nat) : List Nat :=
  (line.drop 1).take (line.length - 3)

/-- Header line the inline/telnet branch of Go `Parse` synthesizes:
`*<number of space-split tokens>\r\n`.  Note the count is taken before
empty tokens are discarded. -/
def inlineRaw (line : List Nat) : List Nat :=
  42 :: (itoaNat (splitOnSpace line).length ++ [13, 10])

/-- Children the inline/telnet branch of Go `Parse` synthesizes: each
space-split token is trimmed; empty results are skipped and the rest are
re-encoded as bulk nodes via `respcoding.Marshal`. -/
def inlineMulti (line : List Nat) : List Resp :=
  (splitOnSpace line).filterMap fun t =>
    let str := trimSpace t
    if str.length = 0 then none
    else some (Resp.mk BulkResp (marshalBulk str) [])

/-- One level of Go `Parse`, parameterized by the parser `p` used for the
recursive child calls of the `'*'` branch.  When `allowInline = true`
this is a faithful transcription of the Go `switch line[0]` dispatch;
`allowInline = false` is the auxiliary restriction that turns the
inline/telnet branch into an error, used only to state which inputs are
decoded without that branch. -/
def parseStep (allowInline : Bool)
    (p : List Nat → Except Err (Resp × List Nat)) (s : List Nat) :
    Except Err (Resp × List Nat) :=
  match readLine s with
  | .error e => .error e
  | .ok (line, s1) =>
    if line.getD 0 0 = 45 then .ok (.mk ErrorResp line [], s1)
    else if line.getD 0 0 = 43 then .ok (.mk SimpleString line [], s1)
    else if line.getD 0 0 = 58 then .ok (.mk IntegerResp line [], s1)
    else if line.getD 0 0 = 36 then
      match Btoi (lineNum line) with
      | .error e => .error e
      | .ok size =>
        match ReadBulk s1 size line with
        | .error e => .error e
        | .ok (raw, s2) => .ok (.mk BulkResp raw [], s2)
    else if line.getD 0 0 = 42 then
      match Btoi (lineNum line) with
      | .error e => .error e
      | .ok i =>
        if 0 ≤ i then
          match parseChildren p i.toNat s1 with
          | .error e => .error e
          | .ok (multi, s2) => .ok (.mk MultiResp line multi, s2)
        else .ok (.mk MultiResp line [], s1)
    else if IsLetter (line.getD 0 0) then
      if allowInline then .ok (.mk MultiResp (inlineRaw line) (inlineMulti line), s1)
      else .error .protocolError
    else .error .protocolError

/-- Go `Parse`, fuel-indexed: the Go function recurses without bound on
nested arrays, so the embedding spends one unit of fuel per nesting
level; every theorem quantifies over (or supplies enough) fuel. -/
def Parse : Nat → List Nat → Except Err (Resp × List Nat)
  | 0 => fun _ => .error .fuel
  | fuel + 1 => parseStep true (Parse fuel)

/-- Restriction of `Parse` that fails instead of taking the inline/telnet
branch, at every nesting level.  `ParseStrict fuel s = .ok x` states that
`s` is decoded (to `x`) purely through the five `-+:$*` marker types. -/
def ParseStrict : Nat → List Nat → Except Err (Resp × List Nat)
  | 0 => fun _ => .error .fuel
  | fuel + 1 => parseStep false (ParseStrict fuel)

mutual

/-- Go `(*Resp).Bytes`.  The Go function's error return is only ever the
propagation of a child's error and no case produces one, so it is total
and modelled as returning the byte list directly; the Go guard
`if len(r.Multi) > 0` before the child loop is a no-op (the loop body of
an empty slice appends nothing) and is dropped.  The `getBulkBuf` /
`getSimpleStringBuf` / `getErrorBuf` / `getIntegerBuf` helpers all return
`r.Raw` and are inlined. -/
def Resp.Bytes : Resp → List Nat
  | .mk t raw multi =>
    if t = NoKey then raw2Bulk raw ++ [13, 10]
    else if t = SimpleString then raw
    else if t = ErrorResp then raw
    else if t = IntegerResp then raw
    else if t = BulkResp then raw
    else if t = MultiResp then raw ++ Resp.bytesList multi
    else []

/-- Concatenated serialization of the children of an array node (the
`for _, resp := range r.Multi` loop of Go `Bytes`). -/
def Resp.bytesList : List Resp → List Nat
  | [] => []
  | r :: rs => Resp.Bytes r ++ Resp.bytesList rs

end

/-- Go `(*Resp).Op`: payload of the first child (the command name),
extracted by `raw2Bulk` followed by skipping past the first `\n` (the
length-header remnant).  Errors with "invalid resp" when the receiver has
no children or the remnant newline is missing. -/
def Resp.Op (r : Resp) : Except Err (List Nat) :=
  match r.Multi with
  | m0 :: _ =>
    let op := raw2Bulk m0.Raw
    match indexOf10 op with
    | none => .error .invalidCommand
    | some startPos => .ok (op.drop (startPos + 1))
  | [] => .error .invalidCommand

/-- Loop of Go `defaultGetKeys` over `r.Multi[1:]`: each child's payload
via `raw2Bulk` plus skip-past-first-`\n`, failing when a child has no
`\n`.  The Go early return `nil, nil` for an empty argument list agrees
with the loop on an empty list. -/
def extractKeys : List Resp → Except Err (List (List Nat))
  | [] => .ok []
  | v :: vs =>
    let key := raw2Bulk v.Raw
    match indexOf10 key with
    | none => .error .invalidCommand
    | some startPos =>
      match extractKeys vs with
      | .error e => .error e
      | .ok ks => .ok (key.drop (startPos + 1) :: ks)

/-- Go `defaultGetKeys`. -/
def defaultGetKeys (r : Resp) : Except Err (List (List Nat)) :=
  extractKeys (r.Multi.drop 1)

/-- ASCII bytes of "fakeKey", the placeholder key literal. -/
def fakeKey : List Nat := [102, 97, 107, 101, 75, 101, 121]

/-- ASCII bytes of "ZINTERSTORE". -/
def ZINTERSTOREb : List Nat := [90, 73, 78, 84, 69, 82, 83, 84, 79, 82, 69]
/-- ASCII bytes of "ZUNIONSTORE". -/
def ZUNIONSTOREb : List Nat := [90, 85, 78, 73, 79, 78, 83, 84, 79, 82, 69]
/-- ASCII bytes of "EVAL". -/
def EVALb : List Nat := [69, 86, 65, 76]
/-- ASCII bytes of "EVALSHA". -/
def EVALSHAb : List Nat := [69, 86, 65, 76, 83, 72, 65]
/-- ASCII bytes of "PING". -/
def PINGb : List Nat := [80, 73, 78, 71]
/-- ASCII bytes of "SLOTSNUM". -/
def SLOTSNUMb : List Nat := [83, 76, 79, 84, 83, 78, 85, 77]
/-- ASCII bytes of "SLOTSCHECK". -/
def SLOTSCHECKb : List Nat := [83, 76, 79, 84, 83, 67, 72, 69, 67, 75]

/-- Membership in the `keyFun` map that Go `init` fills from
`thridAsKeyTbl = {ZINTERSTORE, ZUNIONSTORE, EVAL, EVALSHA}`; every entry
maps to `thridAsKey`, so the map is modelled by this membership test. -/
def inThridTbl (k : List Nat) : Bool :=
  k == ZINTERSTOREb || k == ZUNIONSTOREb || k == EVALb || k == EVALSHAb

/-- Key-collecting loop of Go `thridAsKey` over `r.Multi[3:]`: appends
`raw2Bulk v.Raw` (note: no skip-past-`\n` step here, unlike
`defaultGetKeys`) and stops as soon as the number collected equals
`numKeys`. -/
def collectKeys : List Resp → Int → List (List Nat) → List (List Nat)
  | [], _, keys => keys
  | v :: vs, numKeys, keys =>
    let keys1 := keys ++ [raw2Bulk v.Raw]
    if (keys1.length : Int) = numKeys then keys1
    else collectKeys vs numKeys keys1

/-- Go `thridAsKey`: with fewer than 4 children, return the single
placeholder key; otherwise parse `numKeys` from `raw2Bulk` of child 2
(again with no skip-past-`\n`) and collect from child 3 on. -/
def thridAsKey (r : Resp) : Except Err (List (List Nat)) :=
  match r.Multi with
  | _ :: _ :: m2 :: _ :: _ =>
    match Btoi (raw2Bulk m2.Raw) with
    | .error e => .error e
    | .ok numKeys => .ok (collectKeys (r.Multi.drop 3) numKeys [])
  | _ => .ok [fakeKey]

/-- Go `(*Resp).Keys`: dispatch on the command name through the `keyFun`
table (`thridAsKey` for the four table commands, `defaultGetKeys`
otherwise), propagating `Op`'s error. -/
def Resp.Keys (r : Resp) : Except Err (List (List Nat)) :=
  match r.Op with
  | .error e => .error e
  | .ok key => if inThridTbl key then thridAsKey r else defaultGetKeys r

/-- Go `(*Resp).Key`: first key of `Keys` when there is one, otherwise
the placeholder `fakeKey` with a nil error.  (In the Go source a non-nil
error from `Keys` always comes with a nil key slice, so the
`return keys[0], err` branch never carries an error, and this function
never returns one.) -/
def Resp.Key (r : Resp) : Except Err (List Nat) :=
  match r.Keys with
  | .ok (k :: _) => .ok k
  | _ => .ok fakeKey

mutual

/-- Array-count invariant of a decoded tree: every `MultiResp` node's
header line (its `Raw`) declares, in position `[1 : len-2]`, a number
that `Btoi` accepts and that equals the number of children when
non-negative, with no children at all when negative. -/
def countInv : Resp → Bool
  | .mk t raw multi =>
    (if t = MultiResp then
      match Btoi (lineNum raw) with
      | .ok i => if 0 ≤ i then decide ((multi.length : Int) = i) else multi.isEmpty
      | .error _ => false
    else true) && countInvList multi

/-- Conjunction of `countInv` over a list of children. -/
def countInvList : List Resp → Bool
  | [] => true
  | r :: rs => countInv r && countInvList rs

end

/-- Wire bytes of a decoded bulk node with length-header text `h` and
payload `p`: marker, header, CRLF, payload, CRLF.  This is the shape
`Parse`'s `'$'` branch stores in `Raw` and the shape the key-extraction
claims quantify over. -/
def bulkRaw (h p : List Nat) : List Nat :=
  36 :: (h ++ (13 :: 10 :: (p ++ [13, 10])))

/-- Wire bytes of the inline command `PING\r\n`. -/
def pingInlineBytes : List Nat := [80, 73, 78, 71, 13, 10]

/-- Wire bytes of the inline command `PING \r\n` (trailing space). -/
def pingPadBytes : List Nat := [80, 73, 78, 71, 32, 13, 10]

/-- Wire bytes of the multi-bulk command `*1\r\n$4\r\nPING\r\n`. -/
def pingMultiBytes : List Nat :=
  [42, 49, 13, 10, 36, 52, 13, 10, 80, 73, 78, 71, 13, 10]

/-- Decoded tree of `*1\r\n$4\r\nPING\r\n` (also what the inline branch
synthesizes for `PING\r\n`). -/
def pingResp : Resp :=
  .mk MultiResp [42, 49, 13, 10]
    [.mk BulkResp [36, 52, 13, 10, 80, 73, 78, 71, 13, 10] []]

/-- Decoded tree of the inline command `PING \r\n`: the header counts two
space-split tokens but the empty second token is discarded, leaving one
child. -/
def pingPadResp : Resp :=
  .mk MultiResp [42, 50, 13, 10]
    [.mk BulkResp [36, 52, 13, 10, 80, 73, 78, 71, 13, 10] []]

/-- Wire bytes of `*2\r\n$4\r\nPING\r\n$1\r\nx\r\n` (PING with one
argument). -/
def pingArgBytes : List Nat :=
  [42, 50, 13, 10, 36, 52, 13, 10, 80, 73, 78, 71, 13, 10,
   36, 49, 13, 10, 120, 13, 10]

/-- Decoded tree of `*2\r\n$4\r\nPING\r\n$1\r\nx\r\n`. -/
def pingArgResp : Resp :=
  .mk MultiResp [42, 50, 13, 10]
    [.mk BulkResp [36, 52, 13, 10, 80, 73, 78, 71, 13, 10] [],
     .mk BulkResp [36, 49, 13, 10, 120, 13, 10] []]

/-- Wire bytes of `*1\r\n$4\r\nEVAL\r\n` (EVAL with no arguments). -/
def evalOnlyBytes : List Nat :=
  [42, 49, 13, 10, 36, 52, 13, 10, 69, 86, 65, 76, 13, 10]

/-- Decoded tree of `*1\r\n$4\r\nEVAL\r\n`. -/
def evalOnlyResp : Resp :=
  .mk MultiResp [42, 49, 13, 10]
    [.mk BulkResp [36, 52, 13, 10, 69, 86, 65, 76, 13, 10] []]

/-- Wire bytes of `*3\r\n$3\r\nSET\r\n$3\r\nfoo\r\n$3\r\nbar\r\n`. -/
def setBytes : List Nat :=
  [42, 51, 13, 10, 36, 51, 13, 10, 83, 69, 84, 13, 10,
   36, 51, 13, 10, 102, 111, 111, 13, 10,
   36, 51, 13, 10, 98, 97, 114, 13, 10]

/-- Decoded tree of `SET foo bar`. -/
def setResp : Resp :=
  .mk MultiResp [42, 51, 13, 10]
    [.mk BulkResp [36, 51, 13, 10, 83, 69, 84, 13, 10] [],
     .mk BulkResp [36, 51, 13, 10, 102, 111, 111, 13, 10] [],
     .mk BulkResp [36, 51, 13, 10, 98, 97, 114, 13, 10] []]

/-- Wire bytes of
`*6\r\n$7\r\nEVALSHA\r\n$3\r\nsha\r\n$1\r\n2\r\n$4\r\nkeyA\r\n$4\r\nkeyB\r\n$4\r\narg1\r\n`. -/
def evalshaBytes : List Nat :=
  [42, 54, 13, 10,
   36, 55, 13, 10, 69, 86, 65, 76, 83, 72, 65, 13, 10,
   36, 51, 13, 10, 115, 104, 97, 13, 10,
   36, 49, 13, 10, 50, 13, 10,
   36, 52, 13, 10, 107, 101, 121, 65, 13, 10,
   36, 52, 13, 10, 107, 101, 121, 66, 13, 10,
   36, 52, 13, 10, 97, 114, 103, 49, 13, 10]

/-- Decoded tree of `EVALSHA sha 2 keyA keyB arg1`. -/
def evalshaResp : Resp :=
  .mk MultiResp [42, 54, 13, 10]
    [.mk BulkResp [36, 55, 13, 10, 69, 86, 65, 76, 83, 72, 65, 13, 10] [],
     .mk BulkResp [36, 51, 13, 10, 115, 104, 97, 13, 10] [],
     .mk BulkResp [36, 49, 13, 10, 50, 13, 10] [],
     .mk BulkResp [36, 52, 13, 10, 107, 101, 121, 65, 13, 10] [],
     .mk BulkResp [36, 52, 13, 10, 107, 101, 121, 66, 13, 10] [],
     .mk BulkResp [36, 52, 13, 10, 97, 114, 103, 49, 13, 10] []]

/-- Decoded tree of the simple string `+OK\r\n` (not a command). -/
def simpleOKResp : Resp := .mk SimpleString [43, 79, 75, 13, 10] []

/-- Array node with a declared count of 0 and no children (decoded
`*0\r\n`). -/
def emptyMultiResp : Resp := .mk MultiResp [42, 48, 13, 10] []

/-- Wire bytes of `*2\r\n$1\r\na\r\n*-1\r\n` (array containing a bulk and
a null array), used as a round-trip witness input. -/
def nestedBytes : List Nat :=
  [42, 50, 13, 10, 36, 49, 13, 10, 97, 13, 10, 42, 45, 49, 13, 10]

/-- Decoded tree of `*2\r\n$1\r\na\r\n*-1\r\n`. -/
def nestedResp : Resp :=
  .mk MultiResp [42, 50, 13, 10]
    [.mk BulkResp [36, 49, 13, 10, 97, 13, 10] [],
     .mk MultiResp [42, 45, 49, 13, 10] []]

lemma splitLine_append {s l r : List Nat} (h : splitLine s = some (l, r)) :
    l ++ r = s := by
  induction s generalizing l r with
  | nil => simp [splitLine] at h
  | cons c cs ih =>
    by_cases hc : c = 10
    · simp [splitLine, hc] at h
      obtain ⟨h1, h2⟩ := h
      subst h1; subst h2; simp [hc]
    · simp only [splitLine, hc, if_false] at h
      rcases hsl : splitLine cs with _ | ⟨l1, r1⟩ <;> rw [hsl] at h
      · simp at h
      · simp at h
        obtain ⟨h1, h2⟩ := h
        subst h1; subst h2
        simpa using ih hsl

lemma readLine_append {s line rest : List Nat}
    (h : readLine s = .ok (line, rest)) : line ++ rest = s := by
  rcases hsl : splitLine s with _ | ⟨l, r⟩ <;>
    simp only [readLine, hsl] at h
  · exact nomatch h
  · split at h
    · exact nomatch h
    · split at h
      · exact nomatch h
      · simp only [Except.ok.injEq, Prod.mk.injEq] at h
        obtain ⟨h1, h2⟩ := h
        subst h1; subst h2
        exact splitLine_append hsl

lemma ReadBulk_spec {s : List Nat} {size : Int} {raw raw2 s2 : List Nat}
    (h : ReadBulk s size raw = .ok (raw2, s2)) :
    ∃ mid, raw2 = raw ++ mid ∧ s = mid ++ s2 := by
  unfold ReadBulk at h
  split at h
  · simp only [Except.ok.injEq, Prod.mk.injEq] at h
    obtain ⟨h1, h2⟩ := h
    exact ⟨[], by simp [h1.symm], by simp [h2]⟩
  · split at h
    · exact nomatch h
    · rcases hrl : readLine (s.drop size.toNat) with e | ⟨line, srest⟩ <;>
        rw [hrl] at h
      · exact nomatch h
      · dsimp only at h
        split at h
        · exact nomatch h
        · simp only [Except.ok.injEq, Prod.mk.injEq] at h
          obtain ⟨h1, h2⟩ := h
          refine ⟨s.take size.toNat ++ line, by simp [h1.symm, List.append_assoc], ?_⟩
          subst h2
          have hla := readLine_append hrl
          calc s = s.take size.toNat ++ s.drop size.toNat := by simp
          _ = s.take size.toNat ++ (line ++ srest) := by rw [hla]
          _ = s.take size.toNat ++ line ++ srest := by simp [List.append_assoc]

lemma raw2Bulk_bulkRaw (h p : List Nat) :
    raw2Bulk (bulkRaw h p) = h ++ 13 :: 10 :: p := by
  unfold raw2Bulk bulkRaw
  have hlen : (36 :: (h ++ (13 :: 10 :: (p ++ [13, 10])))).length - 3 =
      (h ++ 13 :: 10 :: p).length := by
    simp; omega
  rw [List.drop_one]
  have htail : (36 :: (h ++ (13 :: 10 :: (p ++ [13, 10])))).tail =
      (h ++ 13 :: 10 :: p) ++ [13, 10] := by
    simp [List.append_assoc]
  rw [hlen, htail, List.take_left]

lemma indexOf10_header {h : List Nat} (p : List Nat) (hh : ¬ 10 ∈ h) :
    indexOf10 (h ++ 13 :: 10 :: p) = some (h.length + 1) := by
  induction h with
  | nil => simp [indexOf10]
  | cons c cs ih =>
    have hc : c ≠ 10 := by
      intro hc; exact hh (by simp [hc])
    have hcs : ¬ 10 ∈ cs := fun hm => hh (by simp [hm])
    simp only [List.cons_append, indexOf10, List.append_eq, if_neg hc, ih hcs]
    simp

lemma drop_header (h p : List Nat) :
    (h ++ 13 :: 10 :: p).drop (h.length + 1 + 1) = p := by
  have : h ++ 13 :: 10 :: p = (h ++ [13, 10]) ++ p := by simp [List.append_assoc]
  rw [this]
  have hl : h.length + 1 + 1 = (h ++ [13, 10]).length := by simp
  rw [hl, List.drop_left]

lemma extractKeys_bulk :
    ∀ ps : List (List Nat × List Nat), (∀ q ∈ ps, ¬ 10 ∈ q.1) →
      extractKeys (ps.map fun q => Resp.mk BulkResp (bulkRaw q.1 q.2) []) =
        .ok (ps.map Prod.snd) := by
  intro ps
  induction ps with
  | nil => intro _; rfl
  | cons q qs ih =>
    intro hnl
    have hq : ¬ 10 ∈ q.1 := hnl q (by simp)
    have hqs : ∀ x ∈ qs, ¬ 10 ∈ x.1 := fun x hx => hnl x (by simp [hx])
    simp only [List.map_cons, extractKeys, Resp.Raw, raw2Bulk_bulkRaw,
      indexOf10_header _ hq, ih hqs, drop_header]

lemma thridAsKey_short {r : Resp} (hlen : r.Multi.length < 4) :
    thridAsKey r = .ok [fakeKey] := by
  obtain ⟨t, raw, multi⟩ := r
  simp only [Resp.Multi] at hlen ⊢
  unfold thridAsKey
  simp only [Resp.Multi]
  rcases multi with _ | ⟨a, _ | ⟨b, _ | ⟨c, _ | ⟨d, rest⟩⟩⟩⟩
  · rfl
  · rfl
  · rfl
  · rfl
  · simp only [List.length_cons] at hlen
    omega

lemma Keys_dispatch {r : Resp} {k : List Nat} (hop : r.Op = .ok k) :
    r.Keys = if inThridTbl k then thridAsKey r else defaultGetKeys r := by
  unfold Resp.Keys
  rw [hop]

lemma btoiLoop_congr {b c : List Nat} (hlen : b.length = c.length) :
    ∀ (rem i : Nat) (sign n : Int),
      (∀ j, j < i + rem → b.getD j 0 = c.getD j 0) →
      btoiLoop b i rem sign n = btoiLoop c i rem sign n := by
  intro rem
  induction rem with
  | zero => intro i sign n _; rfl
  | succ m ih =>
    intro i sign n hpre
    have hgd : b.getD i 0 = c.getD i 0 := hpre i (by omega)
    have hih : ∀ sign1 n1 : Int,
        btoiLoop b (i + 1) m sign1 n1 = btoiLoop c (i + 1) m sign1 n1 :=
      fun sign1 n1 => ih (i + 1) sign1 n1 (fun j hj => hpre j (by omega))
    simp only [btoiLoop, ← hgd, ← hlen, hih]

lemma getD_of_take_eq {b c : List Nat} {n j : Nat}
    (ht : b.take n = c.take n) (hj : j < n) : b.getD j 0 = c.getD j 0 := by
  have hbc : b.get? j = c.get? j := by
    rw [← List.get?_take hj (l := b), ← List.get?_take hj (l := c), ht]
  show (b.get? j).getD 0 = (c.get? j).getD 0
  rw [hbc]

lemma countInv_multi {line : List Nat} {multi : List Resp} {i : Int}
    (hbt : Btoi (lineNum line) = .ok i)
    (hpos : 0 ≤ i → (multi.length : Int) = i)
    (hneg : i < 0 → multi = [])
    (hl : countInvList multi = true) :
    countInv (.mk MultiResp line multi) = true := by
  show ((if MultiResp = MultiResp then
      match Btoi (lineNum line) with
      | .ok j => if 0 ≤ j then decide ((multi.length : Int) = j) else multi.isEmpty
      | .error _ => false
    else true) && countInvList multi) = true
  rw [if_pos rfl, hbt, hl, Bool.and_true]
  rcases le_or_lt 0 i with hp | hn
  · simp only [if_pos hp, decide_eq_true_eq]
    exact hpos hp
  · simp only [if_neg (not_le.mpr hn)]
    simp [hneg hn]

lemma parseChildren_mono (p q : List Nat → Except Err (Resp × List Nat))
    (hmono : ∀ s x, p s = .ok x → q s = .ok x) :
    ∀ (n : Nat) (s : List Nat) (x : List Resp × List Nat),
      parseChildren p n s = .ok x → parseChildren q n s = .ok x := by
  intro n
  induction n with
  | zero => intro s x h; exact h
  | succ m ih =>
    intro s x h
    unfold parseChildren at h ⊢
    rcases hps : p s with e | ⟨r, s1⟩ <;> rw [hps] at h
    · exact nomatch h
    · rw [hmono s (r, s1) hps]
      dsimp only at h ⊢
      rcases hpc : parseChildren p m s1 with e | ⟨rs, s2⟩ <;> rw [hpc] at h
      · exact nomatch h
      · rw [ih s1 (rs, s2) hpc]
        exact h

lemma parseChildren_spec (p : List Nat → Except Err (Resp × List Nat))
    (hp : ∀ s r rest, p s = .ok (r, rest) →
      r.Bytes ++ rest = s ∧ countInv r = true) :
    ∀ (n : Nat) (s : List Nat) (l : List Resp) (rest : List Nat),
      parseChildren p n s = .ok (l, rest) →
      Resp.bytesList l ++ rest = s ∧ l.length = n ∧ countInvList l = true := by
  intro n
  induction n with
  | zero =>
    intro s l rest h
    simp only [parseChildren, Except.ok.injEq, Prod.mk.injEq] at h
    obtain ⟨h1, h2⟩ := h
    subst h1
    subst h2
    exact ⟨by simp [Resp.bytesList], rfl, rfl⟩
  | succ m ih =>
    intro s l rest h
    unfold parseChildren at h
    rcases hps : p s with e | ⟨r, s1⟩ <;> rw [hps] at h
    · exact nomatch h
    · dsimp only at h
      rcases hpc : parseChildren p m s1 with e | ⟨rs, s2⟩ <;> rw [hpc] at h
      · exact nomatch h
      · dsimp only at h
        simp only [Except.ok.injEq, Prod.mk.injEq] at h
        obtain ⟨h1, h2⟩ := h
        subst h1
        subst h2
        obtain ⟨hb1, hc1⟩ := hp s r s1 hps
        obtain ⟨hb2, hlen2, hc2⟩ := ih s1 rs _ hpc
        refine ⟨?_, by simp [hlen2], ?_⟩
        · show (r.Bytes ++ Resp.bytesList rs) ++ s2 = s
          rw [List.append_assoc, hb2, hb1]
        · show (countInv r && countInvList rs) = true
          simp [hc1, hc2]

lemma parseStep_spec (p q : List Nat → Except Err (Resp × List Nat))
    (hmono : ∀ s x, p s = .ok x → q s = .ok x)
    (hp : ∀ s r rest, p s = .ok (r, rest) →
      r.Bytes ++ rest = s ∧ countInv r = true)
    (s : List Nat) (r : Resp) (rest : List Nat)
    (h : parseStep false p s = .ok (r, rest)) :
    parseStep true q s = .ok (r, rest) ∧ r.Bytes ++ rest = s ∧
      countInv r = true := by
  unfold parseStep at h ⊢
  rcases hrl : readLine s with e | ⟨line, s1⟩ <;> rw [hrl] at h
  · exact nomatch h
  · have hline : line ++ s1 = s := readLine_append hrl
    dsimp only at h ⊢
    by_cases h45 : line.getD 0 0 = 45
    · rw [if_pos h45] at h ⊢
      simp only [Except.ok.injEq, Prod.mk.injEq] at h
      obtain ⟨h1, h2⟩ := h
      subst h1
      subst h2
      exact ⟨rfl, hline, rfl⟩
    · rw [if_neg h45] at h ⊢
      by_cases h43 : line.getD 0 0 = 43
      · rw [if_pos h43] at h ⊢
        simp only [Except.ok.injEq, Prod.mk.injEq] at h
        obtain ⟨h1, h2⟩ := h
        subst h1
        subst h2
        exact ⟨rfl, hline, rfl⟩
      · rw [if_neg h43] at h ⊢
        by_cases h58 : line.getD 0 0 = 58
        · rw [if_pos h58] at h ⊢
          simp only [Except.ok.injEq, Prod.mk.injEq] at h
          obtain ⟨h1, h2⟩ := h
          subst h1
          subst h2
          exact ⟨rfl, hline, rfl⟩
        · rw [if_neg h58] at h ⊢
          by_cases h36 : line.getD 0 0 = 36
          · rw [if_pos h36] at h ⊢
            rcases hbt : Btoi (lineNum line) with e | size <;> rw [hbt] at h
            · exact nomatch h
            · dsimp only at h ⊢
              rcases hrb : ReadBulk s1 size line with e | ⟨raw, s2⟩ <;>
                rw [hrb] at h
              · exact nomatch h
              · dsimp only at h ⊢
                simp only [Except.ok.injEq, Prod.mk.injEq] at h
                obtain ⟨h1, h2⟩ := h
                subst h1
                subst h2
                refine ⟨rfl, ?_, rfl⟩
                obtain ⟨mid, hraw, hs1⟩ := ReadBulk_spec hrb
                show raw ++ s2 = s
                calc raw ++ s2 = (line ++ mid) ++ s2 := by rw [hraw]
                _ = line ++ (mid ++ s2) := by simp [List.append_assoc]
                _ = line ++ s1 := by rw [← hs1]
                _ = s := hline
          · rw [if_neg h36] at h ⊢
            by_cases h42 : line.getD 0 0 = 42
            · rw [if_pos h42] at h ⊢
              rcases hbt : Btoi (lineNum line) with e | i <;> rw [hbt] at h
              · exact nomatch h
              · dsimp only at h ⊢
                by_cases hge : 0 ≤ i
                · rw [if_pos hge] at h ⊢
                  rcases hpc : parseChildren p i.toNat s1 with e | ⟨multi, s2⟩ <;>
                    rw [hpc] at h
                  · exact nomatch h
                  · rw [parseChildren_mono p q hmono i.toNat s1 (multi, s2) hpc]
                    dsimp only at h ⊢
                    simp only [Except.ok.injEq, Prod.mk.injEq] at h
                    obtain ⟨h1, h2⟩ := h
                    subst h1
                    subst h2
                    obtain ⟨hb, hlen, hinv⟩ :=
                      parseChildren_spec p hp i.toNat s1 multi _ hpc
                    refine ⟨rfl, ?_, ?_⟩
                    · show (line ++ Resp.bytesList multi) ++ s2 = s
                      rw [List.append_assoc, hb, hline]
                    · exact countInv_multi hbt
                        (fun _ => by rw [hlen, Int.toNat_of_nonneg hge])
                        (fun hn => absurd hge (not_le.mpr hn)) hinv
                · rw [if_neg hge] at h ⊢
                  simp only [Except.ok.injEq, Prod.mk.injEq] at h
                  obtain ⟨h1, h2⟩ := h
                  subst h1
                  subst h2
                  refine ⟨rfl, ?_, ?_⟩
                  · show (line ++ Resp.bytesList []) ++ s1 = s
                    simpa using hline
                  · exact countInv_multi hbt
                      (fun hp0 => absurd hp0 hge) (fun _ => rfl) rfl
            · rw [if_neg h42] at h ⊢
              by_cases hlet : IsLetter (line.getD 0 0) = true
              · rw [if_pos hlet] at h
                exact nomatch h
              · rw [if_neg hlet] at h
                exact nomatch h

lemma ParseStrict_spec :
    ∀ (fuel : Nat) (s : List Nat) (r : Resp) (rest : List Nat),
      ParseStrict fuel s = .ok (r, rest) →
      Parse fuel s = .ok (r, rest) ∧ r.Bytes ++ rest = s ∧
        countInv r = true := by
  intro fuel
  induction fuel with
  | zero => intro s r rest h; exact nomatch h
  | succ m ih =>
    intro s r rest h
    have hmono : ∀ s1 x, ParseStrict m s1 = .ok x → Parse m s1 = .ok x := by
      intro s1 x hx
      rcases x with ⟨r1, rest1⟩
      exact (ih s1 r1 rest1 hx).1
    have hp : ∀ s1 r1 rest1, ParseStrict m s1 = .ok (r1, rest1) →
        r1.Bytes ++ rest1 = s1 ∧ countInv r1 = true :=
      fun s1 r1 rest1 hx => (ih s1 r1 rest1 hx).2
    exact parseStep_spec (ParseStrict m) (Parse m) hmono hp s r rest h

/-- C2 (code evaluated at the failing input): for the decoded form of
`EVALSHA <sha> 2 keyA keyB arg1`, `Btoi` applied to `raw2Bulk` of the
third child (`1\r\n2`, the length-header remnant included) yields -2878
rather than 2, and `Keys` returns all three children from index 3 with
their length-header remnants (`4\r\nkeyA`, `4\r\nkeyB`, `4\r\narg1`)
instead of the claimed `[keyA, keyB]`. -/
theorem C2_thirdarg_bug :
    Parse 2 evalshaBytes = .ok (evalshaResp, []) ∧
    Btoi [49, 13, 10, 50] = .ok (-2878) ∧
    evalshaResp.Keys = .ok
      [[52, 13, 10, 107, 101, 121, 65],
       [52, 13, 10, 107, 101, 121, 66],
       [52, 13, 10, 97, 114, 103, 49]] ∧
    evalshaResp.Keys ≠ .ok [[107, 101, 121, 65], [107, 101, 121, 66]] :=
  ⟨rfl, rfl, rfl, by decide⟩

/-- C3 (code evaluated at the failing input): `Btoi` accepts the
non-digit byte `'!'` (33) because the Go guard `b[i] >= 0` is vacuous for
an unsigned byte, returning 35 for `"5!"` with no error; the claimed
behaviours for `"-5"`, `"5a"` and `"-"` do hold. -/
theorem C3_btoi_nondigit :
    Btoi [53, 33] = .ok 35 ∧ Btoi [45, 53] = .ok (-5) ∧
    Btoi [53, 97] = .error Err.invalidNumber ∧
    Btoi [45] = .error Err.invalidNumber :=
  ⟨rfl, rfl, rfl, rfl⟩

/-- C9: the `uint8` loop index bounds the scan to the first
`len(b) mod 256` bytes: an input whose length is a positive multiple of
256 yields 0 with no error, and any two equal-length inputs agreeing on
their first `len mod 256` bytes give identical results (trailing bytes
are never examined). -/
theorem C9_uint8_bound :
    (∀ b : List Nat, 0 < b.length → b.length % 256 = 0 → Btoi b = .ok 0) ∧
    (∀ b c : List Nat, b.length = c.length →
      b.take (b.length % 256) = c.take (c.length % 256) → Btoi b = Btoi c) := by
  constructor
  · intro b _ hmod
    unfold Btoi
    rw [hmod]
    rfl
  · intro b c hlen ht
    unfold Btoi
    have hmod : b.length % 256 = c.length % 256 := by rw [hlen]
    have ht2 : b.take (b.length % 256) = c.take (b.length % 256) := by
      calc b.take (b.length % 256) = c.take (c.length % 256) := ht
      _ = c.take (b.length % 256) := by rw [hmod]
    rw [← hmod]
    exact btoiLoop_congr hlen (b.length % 256) 0 1 0
      (fun j hj => getD_of_take_eq ht2 (by omega))

/-- C9 witness: a 256-digit number parses to 0 with no error. -/
theorem C9_witness : Btoi (List.replicate 256 49) = .ok 0 :=
  C9_uint8_bound.1 (List.replicate 256 49)
    (by rw [List.length_replicate]; decide) (by rw [List.length_replicate])

/-- C10: `Btoi` of the empty slice returns 0 with no error, and a bulk
header with an empty length field (`$\r\n` followed by `\r\n`) decodes as
a length-0 bulk string. -/
theorem C10_empty_number :
    Btoi [] = .ok 0 ∧
    Parse 1 [36, 13, 10, 13, 10] =
      .ok (.mk BulkResp [36, 13, 10, 13, 10] [], []) :=
  ⟨rfl, rfl⟩

/-- C5 counterexample: on a decoded value that is not a non-empty array
(the simple string `+OK\r\n`), key extraction fails and `Keys` reports
the error, but `Key` returns the placeholder `fakeKey` with no error —
the error is not reported to `Key`'s caller, contradicting the claim. -/
theorem C5_counterexample :
    simpleOKResp.Keys = .error Err.invalidCommand ∧
    simpleOKResp.Key = .ok fakeKey :=
  ⟨rfl, rfl⟩

/-- C5 (amended): extraction errors propagate to the caller of `Keys`
(`Op` failures and both strategy functions' failures), but `Key` swallows
every error from `Keys`, returning the placeholder `fakeKey` with no
error. -/
theorem C5_error_propagation :
    (∀ (r : Resp) (e : Err), r.Op = .error e → r.Keys = .error e) ∧
    (∀ (r : Resp) (k : List Nat) (e : Err), r.Op = .ok k →
      inThridTbl k = true → thridAsKey r = .error e → r.Keys = .error e) ∧
    (∀ (r : Resp) (k : List Nat) (e : Err), r.Op = .ok k →
      inThridTbl k = false → defaultGetKeys r = .error e → r.Keys = .error e) ∧
    (∀ (r : Resp) (e : Err), r.Keys = .error e → r.Key = .ok fakeKey) := by
  refine ⟨?_, ?_, ?_, ?_⟩
  · intro r e h
    unfold Resp.Keys
    rw [h]
  · intro r k e hop ht hf
    rw [Keys_dispatch hop]
    simp [ht, hf]
  · intro r k e hop ht hf
    rw [Keys_dispatch hop]
    simp [ht, hf]
  · intro r e h
    unfold Resp.Key
    rw [h]

/-- C5 witness: on the empty array `*0\r\n`, `Op` fails, `Keys` reports
the error, and `Key` returns the placeholder with no error. -/
theorem C5_witness :
    emptyMultiResp.Keys = .error Err.invalidCommand ∧
    emptyMultiResp.Key = .ok fakeKey :=
  ⟨C5_error_propagation.1 emptyMultiResp Err.invalidCommand rfl,
   C5_error_propagation.2.2.2 emptyMultiResp Err.invalidCommand
     (C5_error_propagation.1 emptyMultiResp Err.invalidCommand rfl)⟩

/-- C6 counterexample: the decoded `PING x` (PING with one argument) is
routed by content — `Key` returns the argument payload `x`, not the
placeholder — so the claim's "regardless of how many arguments follow"
fails (the `noKeyOps` table is never consulted by the code). -/
theorem C6_counterexample :
    Parse 2 pingArgBytes = .ok (pingArgResp, []) ∧
    pingArgResp.Key = .ok [120] ∧
    pingArgResp.Key ≠ .ok fakeKey :=
  ⟨rfl, rfl, by decide⟩

/-- C6 (amended): for the commands of the documented keyless set (PING,
SLOTSNUM, SLOTSCHECK), `Key` returns the placeholder `fakeKey` exactly
when the command has no arguments; the placeholder then arises from the
empty default-strategy key list, not from the (unused) `noKeyOps`
table. -/
theorem C6_keyless_no_args (r : Resp) (k : List Nat)
    (hop : r.Op = .ok k)
    (hk : k = PINGb ∨ k = SLOTSNUMb ∨ k = SLOTSCHECKb)
    (hlen : r.Multi.length = 1) :
    r.Key = .ok fakeKey := by
  have hkt : inThridTbl k = false := by
    rcases hk with h | h | h <;> subst h <;> rfl
  have hdrop : r.Multi.drop 1 = [] := by
    rcases hm : r.Multi with _ | ⟨a, rest⟩
    · rfl
    · rw [hm] at hlen
      simp only [List.length_cons] at hlen
      have : rest = [] := List.length_eq_zero.mp (by omega)
      simp [this]
  have hkeys : r.Keys = .ok [] := by
    rw [Keys_dispatch hop]
    simp only [hkt, Bool.false_eq_true, if_false]
    unfold defaultGetKeys
    rw [hdrop]
    rfl
  unfold Resp.Key
  rw [hkeys]

/-- C6 witness: `Key` of the decoded `*1\r\n$4\r\nPING\r\n` is the
placeholder. -/
theorem C6_witness :
    Parse 2 pingMultiBytes = .ok (pingResp, []) ∧
    pingResp.Key = .ok fakeKey :=
  ⟨rfl, C6_keyless_no_args pingResp PINGb rfl (Or.inl rfl) rfl⟩

/-- C7: every strategy-table command (ZINTERSTORE, ZUNIONSTORE, EVAL,
EVALSHA) with fewer than 4 children makes `Keys` return exactly the
single placeholder key and `Key` the placeholder, with no error; in
particular `Key` of decoded `EVAL` with no arguments and `Key` of decoded
`PING` are both the placeholder. -/
theorem C7_short_fallback (r : Resp) (k : List Nat)
    (hop : r.Op = .ok k) (hk : inThridTbl k = true)
    (hlen : r.Multi.length < 4) :
    r.Keys = .ok [fakeKey] ∧ r.Key = .ok fakeKey ∧
    Parse 2 evalOnlyBytes = .ok (evalOnlyResp, []) ∧
    evalOnlyResp.Key = .ok fakeKey ∧
    Parse 2 pingMultiBytes = .ok (pingResp, []) ∧
    pingResp.Key = .ok fakeKey := by
  have hkeys : r.Keys = .ok [fakeKey] := by
    rw [Keys_dispatch hop]
    simp [hk, thridAsKey_short hlen]
  refine ⟨hkeys, ?_, rfl, rfl, rfl, rfl⟩
  unfold Resp.Key
  rw [hkeys]

/-- C7 witness: applied to the decoded `EVAL` with no arguments. -/
theorem C7_witness :
    evalOnlyResp.Keys = .ok [fakeKey] ∧ evalOnlyResp.Key = .ok fakeKey :=
  ⟨(C7_short_fallback evalOnlyResp EVALb rfl rfl (by decide)).1,
   (C7_short_fallback evalOnlyResp EVALb rfl rfl (by decide)).2.1⟩

/-- C8: for a decoded multi-bulk command whose name is not in the
strategy table — children after the first being decoded bulk nodes with
newline-free length headers — `Keys` returns exactly the true payloads of
every child after the command name, in order (two-step extraction:
`raw2Bulk` then skip past the first `\n`); in particular `SET foo bar`
yields `[foo, bar]`. -/
theorem C8_default_strategy (r : Resp) (k : List Nat) (cmd : Resp)
    (ps : List (List Nat × List Nat))
    (hm : r.Multi = cmd :: (ps.map fun q => Resp.mk BulkResp (bulkRaw q.1 q.2) []))
    (hnl : ∀ q ∈ ps, ¬ 10 ∈ q.1)
    (hop : r.Op = .ok k) (hk : inThridTbl k = false) :
    r.Keys = .ok (ps.map Prod.snd) ∧
    Parse 2 setBytes = .ok (setResp, []) ∧
    setResp.Keys = .ok [[102, 111, 111], [98, 97, 114]] := by
  refine ⟨?_, rfl, rfl⟩
  rw [Keys_dispatch hop]
  simp only [hk, Bool.false_eq_true, if_false]
  unfold defaultGetKeys
  rw [hm]
  simp only [List.drop_succ_cons, List.drop_zero]
  exact extractKeys_bulk ps hnl

/-- C8 witness: applied to the decoded `SET foo bar`. -/
theorem C8_witness :
    setResp.Keys = .ok [[102, 111, 111], [98, 97, 114]] :=
  (C8_default_strategy setResp [83, 69, 84]
    (.mk BulkResp [36, 51, 13, 10, 83, 69, 84, 13, 10] [])
    [([51], [102, 111, 111]), ([51], [98, 97, 114])]
    rfl (by decide) rfl rfl).1

/-- C1 counterexample: the inline/telnet command `PING\r\n` is accepted
by `Parse`, but re-serializing the decoded value yields the multi-bulk
form `*1\r\n$4\r\nPING\r\n`, not the input bytes — the round-trip
fails on inline commands. -/
theorem C1_counterexample :
    Parse 1 pingInlineBytes = .ok (pingResp, []) ∧
    pingResp.Bytes = pingMultiBytes ∧
    pingResp.Bytes ≠ pingInlineBytes :=
  ⟨rfl, rfl, by decide⟩

/-- C1 (amended): for every message decoded purely through the five
`-+:$*` marker types at every nesting level (`ParseStrict` succeeds, i.e.
the inline/telnet branch is never taken), re-serializing the decoded
value with `Bytes` reproduces exactly the consumed input bytes. -/
theorem C1_roundtrip (fuel : Nat) (s : List Nat) (r : Resp)
    (rest : List Nat) (h : ParseStrict fuel s = .ok (r, rest)) :
    Parse fuel s = .ok (r, rest) ∧ r.Bytes ++ rest = s :=
  ⟨(ParseStrict_spec fuel s r rest h).1, (ParseStrict_spec fuel s r rest h).2.1⟩

/-- C1 witness: round-trip at the nested message `*2\r\n$1\r\na\r\n*-1\r\n`. -/
theorem C1_witness :
    Parse 2 nestedBytes = .ok (nestedResp, []) ∧
    nestedResp.Bytes ++ ([] : List Nat) = nestedBytes :=
  C1_roundtrip 2 nestedBytes nestedResp [] rfl

/-- C4 counterexample: the inline command `PING \r\n` (trailing space)
decodes to an array whose header declares 2 elements (the space-split
token count) while only one child is present (the empty token is
discarded) — the declared count differs from the number of children even
though children are present. -/
theorem C4_counterexample :
    Parse 1 pingPadBytes = .ok (pingPadResp, []) ∧
    Btoi (lineNum pingPadResp.Raw) = .ok 2 ∧
    pingPadResp.Multi.length = 1 ∧
    pingPadResp.Multi.length ≠ 2 :=
  ⟨rfl, rfl, rfl, by decide⟩

/-- C4 (amended): for every message decoded purely through the five
`-+:$*` marker types at every nesting level, every `MultiResp` node of
the result satisfies the array-count invariant: the count declared in its
header line equals the number of children when non-negative, and a
negative declared count yields no children (`countInv`). -/
theorem C4_array_count (fuel : Nat) (s : List Nat) (r : Resp)
    (rest : List Nat) (h : ParseStrict fuel s = .ok (r, rest)) :
    Parse fuel s = .ok (r, rest) ∧ countInv r = true :=
  ⟨(ParseStrict_spec fuel s r rest h).1, (ParseStrict_spec fuel s r rest h).2.2⟩

/-- C4 witness: the count invariant at the nested message
`*2\r\n$1\r\na\r\n*-1\r\n` (one positive count, one null array). -/
theorem C4_witness :
    Parse 2 nestedBytes = .ok (nestedResp, []) ∧ countInv nestedResp = true :=
  C4_array_count 2 nestedBytes nestedResp [] rfl

end Codis
